import Mathlib

/-!
Verification of the karakeep-mcp-shim response-normalization engine.

This file gives a shallow embedding of the decision logic of the shim
(`parser.js` and the per-call error translation of `router.js`) and proves
or refutes the specified properties against it.

Modelling conventions:
- JSON-safe JavaScript values are the inductive `JVal`; an object is its
  ordered list of own enumerable (key, value) pairs, as JavaScript preserves
  insertion order for string keys.
- JavaScript `Map` objects (used for de-duplication) are ordered association
  lists from `JVal` keys to objects; key equality is structural, which agrees
  with JavaScript SameValueZero on the primitive keys the code produces.
- `JSON.parse` is modelled by an executable parser (`tryParseJSON`) covering
  the JSON grammar with integer numerals and the common string escapes; the
  JavaScript helper returns `null` both on parse failure and for the input
  "null", and the model collapses both to `none`, matching every use site
  (which only ever distinguishes objects and arrays from everything else).
- Numbers are modelled as integers (`Int`); the payloads at issue carry
  string identifiers and cursors, and no claim depends on float behaviour.
-/

/- ------------------------------------------------------------------ -/
/- The JavaScript value model                                          -/
/- ------------------------------------------------------------------ -/

inductive JVal : Type where
  | null : JVal
  | bool (b : Bool) : JVal
  | num (n : Int) : JVal
  | str (s : String) : JVal
  | arr (elems : List JVal) : JVal
  | obj (fields : List (String × JVal)) : JVal

mutual

def jvalDecEq : (a b : JVal) → Decidable (a = b)
  | JVal.null, JVal.null => isTrue rfl
  | JVal.bool a, JVal.bool b =>
    match decEq a b with
    | isTrue h => isTrue (by rw [h])
    | isFalse h => isFalse (by simp [h])
  | JVal.num a, JVal.num b =>
    match decEq a b with
    | isTrue h => isTrue (by rw [h])
    | isFalse h => isFalse (by simp [h])
  | JVal.str a, JVal.str b =>
    match decEq a b with
    | isTrue h => isTrue (by rw [h])
    | isFalse h => isFalse (by simp [h])
  | JVal.arr a, JVal.arr b =>
    match jlistDecEq a b with
    | isTrue h => isTrue (by rw [h])
    | isFalse h => isFalse (by simp [h])
  | JVal.obj a, JVal.obj b =>
    match jfieldsDecEq a b with
    | isTrue h => isTrue (by rw [h])
    | isFalse h => isFalse (by simp [h])
  | JVal.null, JVal.bool _ => isFalse (fun h => JVal.noConfusion h)
  | JVal.null, JVal.num _ => isFalse (fun h => JVal.noConfusion h)
  | JVal.null, JVal.str _ => isFalse (fun h => JVal.noConfusion h)
  | JVal.null, JVal.arr _ => isFalse (fun h => JVal.noConfusion h)
  | JVal.null, JVal.obj _ => isFalse (fun h => JVal.noConfusion h)
  | JVal.bool _, JVal.null => isFalse (fun h => JVal.noConfusion h)
  | JVal.bool _, JVal.num _ => isFalse (fun h => JVal.noConfusion h)
  | JVal.bool _, JVal.str _ => isFalse (fun h => JVal.noConfusion h)
  | JVal.bool _, JVal.arr _ => isFalse (fun h => JVal.noConfusion h)
  | JVal.bool _, JVal.obj _ => isFalse (fun h => JVal.noConfusion h)
  | JVal.num _, JVal.null => isFalse (fun h => JVal.noConfusion h)
  | JVal.num _, JVal.bool _ => isFalse (fun h => JVal.noConfusion h)
  | JVal.num _, JVal.str _ => isFalse (fun h => JVal.noConfusion h)
  | JVal.num _, JVal.arr _ => isFalse (fun h => JVal.noConfusion h)
  | JVal.num _, JVal.obj _ => isFalse (fun h => JVal.noConfusion h)
  | JVal.str _, JVal.null => isFalse (fun h => JVal.noConfusion h)
  | JVal.str _, JVal.bool _ => isFalse (fun h => JVal.noConfusion h)
  | JVal.str _, JVal.num _ => isFalse (fun h => JVal.noConfusion h)
  | JVal.str _, JVal.arr _ => isFalse (fun h => JVal.noConfusion h)
  | JVal.str _, JVal.obj _ => isFalse (fun h => JVal.noConfusion h)
  | JVal.arr _, JVal.null => isFalse (fun h => JVal.noConfusion h)
  | JVal.arr _, JVal.bool _ => isFalse (fun h => JVal.noConfusion h)
  | JVal.arr _, JVal.num _ => isFalse (fun h => JVal.noConfusion h)
  | JVal.arr _, JVal.str _ => isFalse (fun h => JVal.noConfusion h)
  | JVal.arr _, JVal.obj _ => isFalse (fun h => JVal.noConfusion h)
  | JVal.obj _, JVal.null => isFalse (fun h => JVal.noConfusion h)
  | JVal.obj _, JVal.bool _ => isFalse (fun h => JVal.noConfusion h)
  | JVal.obj _, JVal.num _ => isFalse (fun h => JVal.noConfusion h)
  | JVal.obj _, JVal.str _ => isFalse (fun h => JVal.noConfusion h)
  | JVal.obj _, JVal.arr _ => isFalse (fun h => JVal.noConfusion h)

def jlistDecEq : (a b : List JVal) → Decidable (a = b)
  | [], [] => isTrue rfl
  | [], _ :: _ => isFalse (fun h => List.noConfusion h)
  | _ :: _, [] => isFalse (fun h => List.noConfusion h)
  | x :: xs, y :: ys =>
    match jvalDecEq x y with
    | isTrue h1 =>
      match jlistDecEq xs ys with
      | isTrue h2 => isTrue (by rw [h1, h2])
      | isFalse h2 => isFalse (by simp [h2])
    | isFalse h1 => isFalse (by simp [h1])

def jfieldsDecEq : (a b : List (String × JVal)) → Decidable (a = b)
  | [], [] => isTrue rfl
  | [], _ :: _ => isFalse (fun h => List.noConfusion h)
  | _ :: _, [] => isFalse (fun h => List.noConfusion h)
  | (k1, v1) :: xs, (k2, v2) :: ys =>
    match decEq k1 k2 with
    | isTrue hk =>
      match jvalDecEq v1 v2 with
      | isTrue hv =>
        match jfieldsDecEq xs ys with
        | isTrue h2 => isTrue (by rw [hk, hv, h2])
        | isFalse h2 => isFalse (by simp [h2])
      | isFalse hv => isFalse (by simp [hv])
    | isFalse hk => isFalse (by simp [hk])

end

instance : DecidableEq JVal := jvalDecEq

/-- Ordered own-property list of a JavaScript object. -/
abbrev Obj : Type := List (String × JVal)

/-- Truthiness of a JavaScript value (ToBoolean): null, false, 0 and the
empty string are falsy; every array and object is truthy. -/
def truthy : JVal → Bool
  | JVal.null => false
  | JVal.bool b => b
  | JVal.num n => n != 0
  | JVal.str s => s != ""
  | JVal.arr _ => true
  | JVal.obj _ => true

/-- A JSON container in the sense of the parser module: a value for which
the JavaScript test `v && typeof v === "object"` succeeds. -/
def isContainer : JVal → Bool
  | JVal.arr _ => true
  | JVal.obj _ => true
  | _ => false

/-- A primitive value; on these, structural equality coincides with
JavaScript SameValueZero (Map key) equality. -/
def isPrimitive : JVal → Bool
  | JVal.arr _ => false
  | JVal.obj _ => false
  | _ => true

/-- The guard `raw && typeof raw === "object"` of normalizeKarakeepPayload
(server.js parser module, line 207). -/
def isObjectLike : JVal → Bool
  | JVal.arr _ => true
  | JVal.obj _ => true
  | _ => false

/- ------------------------------------------------------------------ -/
/- Object primitives (property read, assignment, spread)               -/
/- ------------------------------------------------------------------ -/

/-- Property read on an object: the value at the first matching key
(JavaScript objects cannot carry a duplicate key, so first is only). -/
def objGet : Obj → String → Option JVal
  | [], _ => none
  | e :: rest, k => if e.1 = k then some e.2 else objGet rest k

/-- Property write: an existing key keeps its position and gets the new
value; a new key is appended, mirroring JavaScript insertion order. -/
def objSet : Obj → String → JVal → Obj
  | [], k, v => [(k, v)]
  | e :: rest, k, v => if e.1 = k then (k, v) :: rest else e :: objSet rest k v

/-- Sequential property assignment of every field of `src` onto `tgt`:
the shared semantics of `Object.assign(tgt, src)` and of the object spread
used by the parser module. -/
def objAssign (tgt : Obj) (src : Obj) : Obj :=
  src.foldl (fun acc e => objSet acc e.1 e.2) tgt

/-- Well-formedness of an embedded object: keys are pairwise distinct, as
they are for every real JavaScript object. -/
def NodupKeys (o : Obj) : Prop := (o.map Prod.fst).Nodup

instance (o : Obj) : Decidable (NodupKeys o) := by
  unfold NodupKeys; infer_instance

/- ------------------------------------------------------------------ -/
/- Decimal rendering of a number (JavaScript template interpolation)   -/
/- ------------------------------------------------------------------ -/

/-- Decimal digit character for a value below ten. -/
def decDigit (n : Nat) : Char := Char.ofNat (48 + n)

/-- Fuel-driven accumulator loop producing decimal digits, most
significant first. -/
def natToDecCore : Nat → Nat → List Char → List Char
  | 0, _, acc => acc
  | fuel + 1, n, acc =>
    if n < 10 then decDigit n :: acc
    else natToDecCore fuel (n / 10) (decDigit (n % 10) :: acc)

/-- Decimal rendering of a natural number, as JavaScript string
interpolation renders a nonnegative integer. -/
def natToDec (n : Nat) : String := ⟨natToDecCore (n + 1) n []⟩

/-- The synthetic placeholder identifier the de-duplication step gives a
record whose Bookmark_ID is falsy (server.js parser module, line 234). -/
def tmpName (i : Nat) : String := "tmp_" ++ natToDec i

/- ------------------------------------------------------------------ -/
/- String trimming (JavaScript String.prototype.trim, ASCII fragment)  -/
/- ------------------------------------------------------------------ -/

/-- White-space test used for trimming and for the regex class \s
(ASCII fragment: space, tab, line feed, carriage return, vertical tab,
form feed). -/
def jsWs (c : Char) : Bool :=
  c = ' ' || c = Char.ofNat 9 || c = Char.ofNat 10 || c = Char.ofNat 13 ||
  c = Char.ofNat 11 || c = Char.ofNat 12

/-- JavaScript String.prototype.trim on the ASCII white-space fragment. -/
def jsTrim (s : String) : String :=
  ⟨((s.data.dropWhile jsWs).reverse.dropWhile jsWs).reverse⟩

/- ------------------------------------------------------------------ -/
/- Field access on an arbitrary value                                  -/
/- ------------------------------------------------------------------ -/

/-- Property read on an arbitrary value: `v.k` is undefined (none) unless
`v` is an object carrying the key. (The named keys the code reads never
collide with array index or string properties.) -/
def getField : JVal → String → Option JVal
  | JVal.obj fs, k => objGet fs k
  | _, _ => none

/-- Candidate row list of a payload: `Array.isArray(raw.items) ? raw.items
: []` (server.js parser module, line 211). -/
def rawRows (raw : JVal) : List JVal :=
  match getField raw "items" with
  | some (JVal.arr xs) => xs
  | _ => []

/-- Own enumerable properties of an array, as Object.assign sees them:
index keys in order. -/
def arrayFields (xs : List JVal) : Obj :=
  xs.enum.map (fun p => (natToDec p.1, p.2))

/-- Own enumerable properties of a row when the JavaScript test
`row && typeof row === "object"` succeeds, none otherwise. -/
def rowFields : JVal → Option Obj
  | JVal.obj fs => some fs
  | JVal.arr xs => some (arrayFields xs)
  | _ => none

/- ------------------------------------------------------------------ -/
/- Record coalescing (server.js parser module, lines 212 to 229)       -/
/- ------------------------------------------------------------------ -/

/-- One step of the coalescing walk: a row carrying Bookmark_ID starts a
new current record (pushing the previous one), any other object row is
assigned onto the current record, and everything else is ignored. -/
def coalesceStep (st : List Obj × Option Obj) (row : JVal) : List Obj × Option Obj :=
  match rowFields row with
  | some fs =>
    if (objGet fs "Bookmark_ID").isSome then
      (match st.2 with
       | some c => st.1 ++ [c]
       | none => st.1,
       some (objAssign [] fs))
    else
      match st.2 with
      | some c => (st.1, some (objAssign c fs))
      | none => st
  | none => st

/-- Final flush of a coalescing walk state. -/
def coalesceFlush (st : List Obj × Option Obj) : List Obj :=
  match st with
  | (acc, some c) => acc ++ [c]
  | (acc, none) => acc

/-- Coalescing walk over the candidate rows, including the final flush of
the last current record. -/
def coalesceRows (rows : List JVal) : List Obj :=
  coalesceFlush (rows.foldl coalesceStep ([], none))

/- ------------------------------------------------------------------ -/
/- De-duplication by Bookmark_ID (server.js parser module, 231 to 237)  -/
/- ------------------------------------------------------------------ -/

/-- Lookup in the insertion-ordered Map. -/
def mapGet : List (JVal × Obj) → JVal → Option Obj
  | [], _ => none
  | e :: rest, k => if e.1 = k then some e.2 else mapGet rest k

/-- Map.set: an existing key keeps its position, a new key is appended. -/
def mapSet : List (JVal × Obj) → JVal → Obj → List (JVal × Obj)
  | [], k, v => [(k, v)]
  | e :: rest, k, v => if e.1 = k then (k, v) :: rest else e :: mapSet rest k v

/-- Bookmark_ID property of a coalesced record. -/
def bidOf (it : Obj) : Option JVal := objGet it "Bookmark_ID"

/-- Whether a record carries a truthy Bookmark_ID; a record without one is
an identifier-less record in the sense of the specification. -/
def bidTruthy (it : Obj) : Bool :=
  match bidOf it with
  | some v => truthy v
  | none => false

/-- One de-duplication step: `const id = it.Bookmark_ID || tmp_<size>`
followed by `byId.set(id, { ...existing, ...it })`. -/
def dedupeStep (m : List (JVal × Obj)) (it : Obj) : List (JVal × Obj) :=
  let key : JVal :=
    match bidOf it with
    | some v => if truthy v then v else JVal.str (tmpName m.length)
    | none => JVal.str (tmpName m.length)
  mapSet m key (objAssign ((mapGet m key).getD []) it)

/-- De-duplication of the coalesced records, in encounter order. -/
def dedupeById (its : List Obj) : List (JVal × Obj) :=
  its.foldl dedupeStep []

/- ------------------------------------------------------------------ -/
/- Pagination unification (server.js parser module, 239 to 257)        -/
/- ------------------------------------------------------------------ -/

/-- The fixed priority list of pagination token fields. -/
def tokenCandidates (raw : JVal) : List (Option JVal) :=
  [getField raw "nextCursor", getField raw "next_cursor",
   getField raw "nextPageToken", getField raw "next_page_token",
   getField raw "cursor"]

/-- First candidate that is a string with non-blank trim, or none:
`tokenCandidates.find(t => typeof t === "string" && t.trim() !== "")`. -/
def findTokenStr : List (Option JVal) → Option String
  | [] => none
  | some (JVal.str s) :: rest => if jsTrim s = "" then findTokenStr rest else some s
  | _ :: rest => findTokenStr rest

/-- The explicit boolean pagination override: a boolean `hasMore` field
wins, else a boolean `has_more` field, else there is no override. -/
def explicitHasMoreFlag (raw : JVal) : Option Bool :=
  match getField raw "hasMore" with
  | some (JVal.bool b) => some b
  | _ =>
    match getField raw "has_more" with
    | some (JVal.bool b) => some b
    | _ => none

/-- The canonical output shape of the Record Coalescer / Paginator. -/
structure PageResult : Type where
  items : List Obj
  nextCursor : Option String
  hasMore : Bool
deriving DecidableEq

/-- The Record Coalescer / Paginator, normalizeKarakeepPayload
(server.js parser module, lines 205 to 265). -/
def normalizeKarakeepPayload (raw : JVal) : PageResult :=
  if isObjectLike raw then
    let nextCursor := findTokenStr (tokenCandidates raw)
    { items := (dedupeById (coalesceRows (rawRows raw))).map Prod.snd
      nextCursor := nextCursor
      hasMore :=
        match explicitHasMoreFlag raw with
        | some b => b
        | none =>
          match nextCursor with
          | some s => jsTrim s != ""
          | none => false }
  else
    { items := [], nextCursor := none, hasMore := false }

/-- The concrete payload of specification Example 1. -/
def c1raw : JVal :=
  JVal.obj
    [("items", JVal.arr
        [JVal.obj [("Bookmark_ID", JVal.str "1"), ("Title", JVal.str "A")],
         JVal.obj [("description", JVal.str "d")],
         JVal.obj [("Bookmark_ID", JVal.str "2"), ("Title", JVal.str "B")]]),
     ("next_page_token", JVal.str "5")]

/-- Rendering of a PageResult back into a payload value, for feeding an
already-normalized result through the normalizer again. -/
def pageToJVal (P : PageResult) : JVal :=
  JVal.obj
    [("items", JVal.arr (P.items.map JVal.obj)),
     ("nextCursor",
        match P.nextCursor with
        | some s => JVal.str s
        | none => JVal.null),
     ("hasMore", JVal.bool P.hasMore)]

/-- A payload whose identifiers collide with the synthetic placeholder
names: the first record claims the identifier tmp_1, so the following
falsy-identifier record is merged into it. -/
def c9raw : JVal :=
  JVal.obj
    [("items", JVal.arr
        [JVal.obj [("Bookmark_ID", JVal.str "tmp_1"), ("a", JVal.num 1)],
         JVal.obj [("Bookmark_ID", JVal.num 0), ("b", JVal.num 2)],
         JVal.obj [("Bookmark_ID", JVal.str "tmp_0"), ("c", JVal.num 3)]])]


/-- A payload on which two identifier-less records are merged with each
other: the truthy identifier tmp_1 occupies the map slot that both
subsequent falsy-identifier records compute as their placeholder. -/
def c7raw : JVal :=
  JVal.obj
    [("items", JVal.arr
        [JVal.obj [("Bookmark_ID", JVal.str "tmp_1"), ("a", JVal.num 1)],
         JVal.obj [("Bookmark_ID", JVal.str ""), ("b", JVal.num 2)],
         JVal.obj [("Bookmark_ID", JVal.num 0), ("c", JVal.num 3)]])]


/- ------------------------------------------------------------------ -/
/- Decimal rendering, proof-side recursion                             -/
/- ------------------------------------------------------------------ -/

/-- Digit list of a natural number, defined by division for proofs; the
executable `natToDecCore` is related to it below. -/
def natToDecList (n : Nat) : List Char :=
  if _ : n < 10 then [decDigit n]
  else natToDecList (n / 10) ++ [decDigit (n % 10)]
decreasing_by exact Nat.div_lt_self (by omega) (by omega)

/-- Numeric reading of a digit character. -/
def digitVal (c : Char) : Nat := c.toNat - 48

/-- Numeric reading of a digit list, most significant first. -/
def decReadAux (a : Nat) (cs : List Char) : Nat :=
  cs.foldl (fun acc c => acc * 10 + digitVal c) a

/- ------------------------------------------------------------------ -/
/- The JSON.parse model                                                -/
/- ------------------------------------------------------------------ -/

/-- Double quote character. -/
def dquoteC : Char := Char.ofNat 34

/-- Backslash character. -/
def bslashC : Char := Char.ofNat 92

/-- Opening curly bracket character. -/
def lbraceC : Char := Char.ofNat 123

/-- Closing curly bracket character. -/
def rbraceC : Char := Char.ofNat 125

/-- Opening square bracket character. -/
def lbrackC : Char := Char.ofNat 91

/-- Closing square bracket character. -/
def rbrackC : Char := Char.ofNat 93

/-- Single quote character. -/
def squoteC : Char := Char.ofNat 39

/-- JSON insignificant white space: space, tab, line feed, carriage
return. -/
def jsonWs (c : Char) : Bool :=
  c = ' ' || c = Char.ofNat 9 || c = Char.ofNat 10 || c = Char.ofNat 13

/-- Skip insignificant white space. -/
def skipWs (cs : List Char) : List Char := cs.dropWhile jsonWs

/-- Decimal digit test. -/
def isDigitChar (c : Char) : Bool := 48 ≤ c.toNat && c.toNat ≤ 57

/-- Meaning of a string escape character (the \u escape is outside the
modelled fragment and reads as a parse failure). -/
def escChar (c : Char) : Option Char :=
  if c = dquoteC then some dquoteC
  else if c = bslashC then some bslashC
  else if c = '/' then some '/'
  else if c = 'n' then some (Char.ofNat 10)
  else if c = 't' then some (Char.ofNat 9)
  else if c = 'r' then some (Char.ofNat 13)
  else if c = 'b' then some (Char.ofNat 8)
  else if c = 'f' then some (Char.ofNat 12)
  else none

/-- Body of a JSON string after its opening quote: content up to the
closing quote plus the remaining input. -/
def parseStrChars : List Char → Option (List Char × List Char)
  | [] => none
  | c :: rest =>
    if c = dquoteC then some ([], rest)
    else if c = bslashC then
      match rest with
      | [] => none
      | e :: rest2 =>
        match escChar e with
        | some ec =>
          match parseStrChars rest2 with
          | some (cs, r) => some (ec :: cs, r)
          | none => none
        | none => none
    else if c.toNat < 32 then none
    else
      match parseStrChars rest with
      | some (cs, r) => some (c :: cs, r)
      | none => none

/-- Numeric value of a digit list. -/
def digitsToNat (ds : List Char) : Nat :=
  ds.foldl (fun a c => a * 10 + digitVal c) 0

/-- A JSON number token (integer fragment of the JSON grammar; a fraction
or exponent reads as a parse failure in the model). -/
def parseNumTok (cs : List Char) : Option (JVal × List Char) :=
  let neg : Bool :=
    match cs with
    | c :: _ => c = '-'
    | [] => false
  let cs1 := if neg then cs.tail else cs
  let ds := cs1.takeWhile isDigitChar
  let rest := cs1.dropWhile isDigitChar
  if ds.isEmpty then none
  else if ds.length > 1 && ds.headD 'x' = '0' then none
  else
    match rest with
    | c :: _ =>
      if c = '.' || c = 'e' || c = 'E' then none
      else some (JVal.num (if neg then -(digitsToNat ds : Int) else (digitsToNat ds : Int)), rest)
    | [] => some (JVal.num (if neg then -(digitsToNat ds : Int) else (digitsToNat ds : Int)), rest)

mutual

/-- One JSON value starting at the input, returning it with the remaining
input; fuel-driven so that the model is executable by the kernel. -/
def parseVal : Nat → List Char → Option (JVal × List Char)
  | 0, _ => none
  | fuel + 1, cs =>
    match skipWs cs with
    | 'n' :: 'u' :: 'l' :: 'l' :: rest => some (JVal.null, rest)
    | 't' :: 'r' :: 'u' :: 'e' :: rest => some (JVal.bool true, rest)
    | 'f' :: 'a' :: 'l' :: 's' :: 'e' :: rest => some (JVal.bool false, rest)
    | c :: rest =>
      if c = dquoteC then
        match parseStrChars rest with
        | some (content, r) => some (JVal.str ⟨content⟩, r)
        | none => none
      else if c = lbraceC then parseObjFields fuel rest []
      else if c = lbrackC then parseArrElems fuel rest []
      else if c = '-' || isDigitChar c then parseNumTok (c :: rest)
      else none
    | [] => none

/-- Elements of a JSON array after its opening bracket. -/
def parseArrElems : Nat → List Char → List JVal → Option (JVal × List Char)
  | 0, _, _ => none
  | fuel + 1, cs, acc =>
    match skipWs cs with
    | [] => none
    | c :: rest =>
      if c = rbrackC && acc.isEmpty then some (JVal.arr [], rest)
      else
        match parseVal fuel (c :: rest) with
        | none => none
        | some (v, r) =>
          match skipWs r with
          | c2 :: r2 =>
            if c2 = ',' then parseArrElems fuel r2 (acc ++ [v])
            else if c2 = rbrackC then some (JVal.arr (acc ++ [v]), r2)
            else none
          | [] => none

/-- Members of a JSON object after its opening brace; a duplicate key
keeps its first position and takes the later value, as in JavaScript. -/
def parseObjFields : Nat → List Char → Obj → Option (JVal × List Char)
  | 0, _, _ => none
  | fuel + 1, cs, acc =>
    match skipWs cs with
    | [] => none
    | c :: rest =>
      if c = rbraceC && acc.isEmpty then some (JVal.obj [], rest)
      else if c = dquoteC then
        match parseStrChars rest with
        | none => none
        | some (kcs, r1) =>
          match skipWs r1 with
          | c2 :: r2 =>
            if c2 = ':' then
              match parseVal fuel r2 with
              | none => none
              | some (v, r3) =>
                match skipWs r3 with
                | c3 :: r4 =>
                  if c3 = ',' then parseObjFields fuel r4 (objSet acc ⟨kcs⟩ v)
                  else if c3 = rbraceC then some (JVal.obj (objSet acc ⟨kcs⟩ v), r4)
                  else none
                | [] => none
            else none
          | [] => none
      else none

end

/-- The helper tryParseJSON (server.js parser module, lines 58 to 66): a
full-input JSON parse, with failure and the JavaScript value null both
reading as none, exactly as the helper returns null in both cases. -/
def tryParseJSON (s : String) : Option JVal :=
  match parseVal (2 * s.data.length + 4) s.data with
  | some (v, rest) =>
    if (skipWs rest).isEmpty then
      match v with
      | JVal.null => none
      | _ => some v
    else none
  | none => none

/- ------------------------------------------------------------------ -/
/- Deep unwrapping (server.js parser module, lines 73 to 86)           -/
/- ------------------------------------------------------------------ -/

/-- Result of the deep-unwrap loop: the last parse outcome and the last
successfully-unwrapped text. -/
structure UnwrapOut : Type where
  parsed : Option JVal
  text : String
deriving DecidableEq

/-- The bounded unwrap loop: parse, and while the result is a string,
parse that string instead. -/
def unwrapLoop : Nat → String → UnwrapOut
  | 0, out => { parsed := none, text := out }
  | n + 1, out =>
    match tryParseJSON out with
    | some (JVal.str s) => unwrapLoop n s
    | p => { parsed := p, text := out }

/-- unwrapDeepJSONString with its default bound of five iterations. -/
def unwrapDeepJSONString (raw : String) : UnwrapOut := unwrapLoop 5 raw

/-- The depth-n JSON-string-encoding relation: `encodesVal C n t` states
that text t is the result of JSON-encoding container C and then
JSON-string-encoding the resulting text n - 1 more times, expressed
through the parser: one layer parses to C, each further layer parses to
the text of the layer below. -/
def encodesVal (C : JVal) : Nat → String → Prop
  | 0, _ => False
  | 1, t => tryParseJSON t = some C
  | n + 2, t => ∃ u, tryParseJSON t = some (JVal.str u) ∧ encodesVal C (n + 1) u

/- ------------------------------------------------------------------ -/
/- Rescue extraction (server.js parser module, lines 108 to 123)       -/
/- ------------------------------------------------------------------ -/

/-- Index of the first occurrence of a character. -/
def firstIdxOf (c : Char) : List Char → Option Nat
  | [] => none
  | x :: xs =>
    if x = c then some 0
    else
      match firstIdxOf c xs with
      | some i => some (i + 1)
      | none => none

/-- Index of the last occurrence of a character. -/
def lastIdxOf (c : Char) (cs : List Char) : Option Nat :=
  match firstIdxOf c cs.reverse with
  | some i => some (cs.length - 1 - i)
  | none => none

/-- The greedy regex match from the first opening delimiter to the last
closing delimiter, as text.match with an any-character body produces. -/
def greedyMatch (o c : Char) (text : String) : Option String :=
  match firstIdxOf o text.data, lastIdxOf c text.data with
  | some i, some j =>
    if i < j then some ⟨(text.data.drop i).take (j - i + 1)⟩ else none
  | _, _ => none

/-- The slow path of the rescue extraction: the greedy brace match when
one exists, else the greedy bracket match, parsed as JSON and kept only
when it parses to a container. -/
def rescueScan (text : String) : Option JVal :=
  match (greedyMatch lbraceC rbraceC text).orElse (fun _ => greedyMatch lbrackC rbrackC text) with
  | some sub =>
    match tryParseJSON sub with
    | some w => if isContainer w then some w else none
    | none => none
  | none => none

/-- extractFirstJSONObjectFromText: direct parse when the whole text is a
container, otherwise the greedy delimiter scan. -/
def extractFirstJSONObjectFromText (text : String) : Option JVal :=
  match tryParseJSON text with
  | some v => if isContainer v then some v else rescueScan text
  | none => rescueScan text

/- ------------------------------------------------------------------ -/
/- JavaScript ToString on JSON-safe values                             -/
/- ------------------------------------------------------------------ -/

mutual

/-- JavaScript String(v) on a JSON-safe value: arrays join their elements
with commas (a null element contributing nothing), plain objects render
as the fixed object tag. -/
def jsToString : JVal → String
  | JVal.null => "null"
  | JVal.bool true => "true"
  | JVal.bool false => "false"
  | JVal.num n => toString n
  | JVal.str s => s
  | JVal.arr xs => String.intercalate "," (jsToStringElems xs)
  | JVal.obj _ => "[object Object]"

/-- Element renderings for the array join. -/
def jsToStringElems : List JVal → List String
  | [] => []
  | JVal.null :: rest => "" :: jsToStringElems rest
  | x :: rest => jsToString x :: jsToStringElems rest

end

/- ------------------------------------------------------------------ -/
/- Payload Extractor (server.js parser module, lines 137 to 184)       -/
/- ------------------------------------------------------------------ -/

/-- The unwrap-then-rescue idiom applied to a string candidate: deep
unwrap; a container parse wins, otherwise rescue extraction runs on the
last unwrapped text. -/
def unwrapRescue (s : String) : Option JVal :=
  match unwrapDeepJSONString s with
  | { parsed := some v, text := text } =>
    if isContainer v then some v else extractFirstJSONObjectFromText text
  | { parsed := none, text := text } => extractFirstJSONObjectFromText text

/-- The document list of one sources entry: a list is taken as is, any
other truthy value is wrapped in a one-element list, and a missing or
falsy document contributes nothing. -/
def docList (d : Option JVal) : List JVal :=
  match d with
  | some (JVal.arr xs) => xs
  | some v => if truthy v then [v] else []
  | none => []

/-- Handling of one document: containers are returned as is, strings go
through unwrap-then-rescue, anything else is skipped. -/
def tryDoc (doc : JVal) : Option JVal :=
  match doc with
  | JVal.null => none
  | JVal.arr _ => some doc
  | JVal.obj _ => some doc
  | JVal.str s => unwrapRescue s
  | _ => none

/-- First hit of a candidate function over a list, in order. -/
def firstSome {α β : Type} (f : α → Option β) : List α → Option β
  | [] => none
  | x :: xs =>
    match f x with
    | some y => some y
    | none => firstSome f xs

/-- The Payload Extractor parseToolResponse: a string input goes straight
to rescue extraction; otherwise a usable result field is preferred, then
the sources documents in order, then rescue extraction over the
stringified input. -/
def parseToolResponse (toolResp : JVal) : Option JVal :=
  match toolResp with
  | JVal.null => none
  | JVal.str s => extractFirstJSONObjectFromText s
  | _ =>
    let step1 : Option JVal :=
      match getField toolResp "result" with
      | some r =>
        if r = JVal.null then none
        else if jsTrim (jsToString r) = "" then none
        else
          match r with
          | JVal.str s => unwrapRescue s
          | JVal.arr _ => some r
          | JVal.obj _ => some r
          | _ => none
      | none => none
    match step1 with
    | some v => some v
    | none =>
      let sources : List JVal :=
        match getField toolResp "sources" with
        | some (JVal.arr ss) => ss
        | _ => []
      match firstSome (fun s => firstSome tryDoc (docList (getField s "document"))) sources with
      | some v => some v
      | none => extractFirstJSONObjectFromText (jsToString toolResp)

/- ------------------------------------------------------------------ -/
/- Free-Text Fallback Parser (server.js parser module, 281 to 341)     -/
/- ------------------------------------------------------------------ -/

/-- Split into lines at each line feed, dropping one carriage return
immediately before it, as the split on the line-break regex does. The
accumulator holds the current line reversed. -/
def splitLinesGo : List Char → List Char → List (List Char)
  | [], acc => [acc.reverse]
  | c :: rest, acc =>
    if c = Char.ofNat 10 then
      (match acc with
       | r :: acc2 => if r = Char.ofNat 13 then acc2.reverse else acc.reverse
       | [] => []) :: splitLinesGo rest []
    else splitLinesGo rest (c :: acc)

/-- Line split of a whole string. -/
def splitLines (s : String) : List (List Char) := splitLinesGo s.data []

/-- Match of one line against the key/value line pattern: optional white
space, a non-empty colon-free key segment, a colon, optional white space,
then the value. Returns the indent length, the raw key segment and the
value. -/
def lineMatch (l : List Char) : Option (Nat × List Char × List Char) :=
  match firstIdxOf ':' l with
  | none => none
  | some i =>
    if i = 0 then none
    else
      let wsLen := (l.takeWhile jsWs).length
      let ind := if wsLen ≥ i then i - 1 else wsLen
      some (ind, (l.drop ind).take (i - ind), (l.drop (i + 1)).dropWhile jsWs)

/-- Case-insensitive test of a trimmed key against the cursor-line
pattern: the word next, white space, the word cursor. -/
def isNextCursorKey (k : String) : Bool :=
  match k.data.map Char.toLower with
  | 'n' :: 'e' :: 'x' :: 't' :: rest =>
    decide (rest.takeWhile jsWs ≠ []) && rest.dropWhile jsWs = ['c', 'u', 'r', 's', 'o', 'r']
  | _ => false

/-- Case-insensitive test of a key against the tag words. -/
def isTagsKey (k : String) : Bool :=
  k.data.map Char.toLower = ['t', 'a', 'g'] || k.data.map Char.toLower = ['t', 'a', 'g', 's']

/-- Surrounding single-quote stripping of a cursor value. -/
def stripQuotes (cs : List Char) : List Char :=
  ((cs.dropWhile (fun c => c = squoteC)).reverse.dropWhile (fun c => c = squoteC)).reverse

/-- Collapse of each maximal white-space run into one underscore. -/
def collapseWs : List Char → List Char
  | [] => []
  | c :: rest =>
    if jsWs c then
      match rest with
      | r :: _ => if jsWs r then collapseWs rest else '_' :: collapseWs rest
      | [] => ['_']
    else c :: collapseWs rest

/-- Word-character test of the regex class for identifiers. -/
def isWordChar (c : Char) : Bool :=
  ('A' ≤ c && c ≤ 'Z') || ('a' ≤ c && c ≤ 'z') || ('0' ≤ c && c ≤ '9') || c = '_'

/-- Key normalization: white-space runs to underscores, non-word
characters to underscores, leading and trailing underscores dropped. -/
def normKey (k : String) : String :=
  let s1 := (collapseWs k.data).map (fun c => if isWordChar c then c else '_')
  ⟨((s1.dropWhile (fun c => c = '_')).reverse.dropWhile (fun c => c = '_')).reverse⟩

/-- Comma split keeping empty segments, as the JavaScript string split
produces. -/
def splitOnComma : List Char → List (List Char)
  | [] => [[]]
  | c :: rest =>
    if c = ',' then [] :: splitOnComma rest
    else
      match splitOnComma rest with
      | g :: gs => (c :: g) :: gs
      | [] => [[c]]

/-- Tag value split: comma segments, trimmed, empties dropped. -/
def splitTags (v : String) : List JVal :=
  (((splitOnComma v.data).map (fun g => jsTrim ⟨g⟩)).filter (fun t => t != "")).map JVal.str

/-- Output shape of the Free-Text Fallback Parser. -/
structure KVOut : Type where
  items : List Obj
  cursor : Option String
  hasMore : Bool
deriving DecidableEq

/-- Walk state of the Free-Text Fallback Parser. -/
structure KVState : Type where
  items : List Obj
  current : Option Obj
  cursor : Option String
  hasMoreFlag : Option Bool

/-- Flush of the current record when it has at least one field. -/
def kvFlush (st : KVState) : KVState :=
  match st.current with
  | some c =>
    if c.length > 0 then { st with items := st.items ++ [c], current := none }
    else { st with current := none }
  | none => st

/-- Processing of one line: a non-matching line is skipped, a cursor line
sets the cursor and the inferred continuation flag, and any other
key/value line lands in the current record, a zero-indent line first
flushing a non-empty current record. -/
def kvLine (st : KVState) (l : List Char) : KVState :=
  match lineMatch l with
  | none => st
  | some (ind, keyRaw, valRaw) =>
    let key := jsTrim ⟨keyRaw⟩
    if isNextCursorKey key then
      let cur := jsTrim ⟨stripQuotes valRaw⟩
      { st with cursor := some cur, hasMoreFlag := some (cur != "" && cur != "0") }
    else
      let st1 :=
        if ind = 0 &&
            (match st.current with
             | some c => c.length > 0
             | none => false) then kvFlush st
        else st
      let cur := st1.current.getD []
      let v : JVal :=
        if isTagsKey key then JVal.arr (splitTags ⟨valRaw⟩) else JVal.str (jsTrim ⟨valRaw⟩)
      { st1 with current := some (objSet cur (normKey key) v) }

/-- The Free-Text Fallback Parser parseKVBlocks. -/
def parseKVBlocks (text : String) : Option KVOut :=
  let st := kvFlush ((splitLines text).foldl kvLine { items := [], current := none, cursor := none, hasMoreFlag := none })
  if st.items.length > 0 || st.cursor.isSome then
    some { items := st.items, cursor := st.cursor, hasMore := st.hasMoreFlag.getD false }
  else none

/- ------------------------------------------------------------------ -/
/- Route Dispatcher failure translation (router.js, lines 154 to 163)  -/
/- ------------------------------------------------------------------ -/

/-- Outcome of the one outbound upstream call of a dispatched handler:
either an upstream response, or a failure raised anywhere while building,
sending or processing the call, carrying its error name. The abort of a
timed-out call surfaces as the AbortError name. -/
inductive CallOutcome : Type where
  | ok (status : Nat) (payload : JVal) : CallOutcome
  | failed (errName : String) (errMsg : String) : CallOutcome

/-- Response sent back to the inbound caller. -/
structure ShimResponse : Type where
  status : Nat
  body : JVal
deriving DecidableEq

/-- The gateway-timeout message, including the elapsed duration. -/
def timeoutDetail (path : String) (duration : Nat) : String :=
  "Upstream timeout on " ++ path ++ " after " ++ natToDec duration ++ "ms"

/-- The per-call response translation of the dispatcher handler: a
completed upstream call answers with the upstream status and the
processed payload; an AbortError answers with 504 and the timeout
message; every other failure answers with 502. Totality of this function
is the never-crash guarantee of the handler's catch-all. -/
def respondToOutcome (path : String) (duration : Nat) : CallOutcome → ShimResponse
  | CallOutcome.ok st payload => { status := st, body := payload }
  | CallOutcome.failed n _ =>
    if n = "AbortError" then
      { status := 504, body := JVal.obj [("detail", JVal.str (timeoutDetail path duration))] }
    else
      { status := 502, body := JVal.obj [("detail", JVal.str ("Shim failed on " ++ path))] }

/- ------------------------------------------------------------------ -/
/- Concrete inputs for the examples and counterexamples                -/
/- ------------------------------------------------------------------ -/

/-- A one-character string holding a single quote. -/
def sqS : String := ⟨[squoteC]⟩

/-- The free text of specification Example 4. -/
def c8text : String :=
  "Title: Hello\nTags: a, b, c\nNext cursor: " ++ sqS ++ "7" ++ sqS

/-- The JSON text of a tool-call envelope. -/
def envText : String := "\x7b\"result\":\"x\",\"sources\":[]\x7d"

/- ------------------------------------------------------------------ -/
/- Proof-side auxiliary definitions                                    -/
/- ------------------------------------------------------------------ -/


/-- Invariant of the de-duplication map: keys are pairwise distinct, every
stored record is well-formed and carries a Bookmark_ID property, and a
stored record with a truthy Bookmark_ID is stored under exactly that
identifier. -/
def DedupInv (m : List (JVal × Obj)) : Prop :=
  (m.map Prod.fst).Nodup ∧
  (∀ e ∈ m, NodupKeys e.2 ∧ (bidOf e.2).isSome = true) ∧
  (∀ e ∈ m, ∀ b, bidOf e.2 = some b → truthy b = true → b = e.1)

/-- Invariant of the de-duplication map under the assumption that no
record identifier has the synthetic shape: keys are pairwise distinct,
every synthetic key is below the map size, and a stored record has a
truthy Bookmark_ID exactly when its key is not synthetic. -/
def DedupTmpInv (m : List (JVal × Obj)) : Prop :=
  (m.map Prod.fst).Nodup ∧
  (∀ e ∈ m, ∀ i : Nat, e.1 = JVal.str (tmpName i) → i < m.length) ∧
  (∀ e ∈ m, (bidTruthy e.2 = true ↔ ∀ i : Nat, e.1 ≠ JVal.str (tmpName i)))

/- ------------------------------------------------------------------ -/
/- Helper lemmas: object primitives                                    -/
/- ------------------------------------------------------------------ -/

theorem objGet_objSet_self (o : Obj) (k : String) (v : JVal) :
    objGet (objSet o k v) k = some v := by
  induction o with
  | nil => simp [objSet, objGet]
  | cons e rest ih =>
    by_cases h : e.1 = k
    · simp [objSet, h, objGet]
    · simp [objSet, h, objGet, ih]

theorem objGet_objSet_ne (o : Obj) (k k2 : String) (v : JVal) (h : k ≠ k2) :
    objGet (objSet o k v) k2 = objGet o k2 := by
  induction o with
  | nil => simp [objSet, objGet, h]
  | cons e rest ih =>
    by_cases he : e.1 = k
    · simp [objSet, he, objGet, h]
    · simp [objSet, he, objGet, ih]

theorem objGet_none_iff (o : Obj) (k : String) :
    objGet o k = none ↔ k ∉ o.map Prod.fst := by
  induction o with
  | nil => simp [objGet]
  | cons e rest ih =>
    by_cases h : e.1 = k
    · simp [objGet, h]
    · simp [objGet, h, ih, Ne.symm h]

theorem objSet_fresh (o : Obj) (k : String) (v : JVal) (h : k ∉ o.map Prod.fst) :
    objSet o k v = o ++ [(k, v)] := by
  induction o with
  | nil => simp [objSet]
  | cons e rest ih =>
    simp only [List.map_cons, List.mem_cons] at h
    push_neg at h
    simp [objSet, Ne.symm h.1, ih h.2]

theorem objSet_keys_of_mem (o : Obj) (k : String) (v : JVal) (h : k ∈ o.map Prod.fst) :
    (objSet o k v).map Prod.fst = o.map Prod.fst := by
  induction o with
  | nil => simp at h
  | cons e rest ih =>
    by_cases he : e.1 = k
    · simp [objSet, he]
    · simp only [List.map_cons, List.mem_cons] at h
      rcases h with h | h
      · exact absurd h.symm he
      · simp [objSet, he, ih h]

theorem objSet_nodup (o : Obj) (k : String) (v : JVal) (h : NodupKeys o) :
    NodupKeys (objSet o k v) := by
  by_cases hm : k ∈ o.map Prod.fst
  · unfold NodupKeys
    rw [objSet_keys_of_mem o k v hm]
    exact h
  · unfold NodupKeys
    rw [objSet_fresh o k v hm]
    simp only [List.map_append, List.map_cons, List.map_nil]
    rw [List.nodup_append]
    refine ⟨h, by simp, ?_⟩
    intro a ha hb
    simp at hb
    subst hb
    exact hm ha

theorem objAssign_cons (t : Obj) (e : String × JVal) (s : Obj) :
    objAssign t (e :: s) = objAssign (objSet t e.1 e.2) s := rfl

theorem objAssign_nil_src (t : Obj) : objAssign t [] = t := rfl

theorem objAssign_nodup (s : Obj) : ∀ t : Obj, NodupKeys t → NodupKeys (objAssign t s) := by
  induction s with
  | nil => intro t h; exact h
  | cons e s2 ih =>
    intro t h
    rw [objAssign_cons]
    exact ih _ (objSet_nodup t e.1 e.2 h)

theorem objAssign_get_of_none (s : Obj) :
    ∀ (t : Obj) (k : String), objGet s k = none → objGet (objAssign t s) k = objGet t k := by
  induction s with
  | nil => intro t k _; rfl
  | cons e s2 ih =>
    intro t k h
    simp only [objGet] at h
    by_cases he : e.1 = k
    · simp [he] at h
    · simp only [he, if_false] at h
      rw [objAssign_cons, ih _ k h, objGet_objSet_ne t e.1 k e.2 he]

theorem objAssign_get_of_mem (s : Obj) :
    ∀ (t : Obj) (k : String) (v : JVal), NodupKeys s → objGet s k = some v →
      objGet (objAssign t s) k = some v := by
  induction s with
  | nil => intro t k v _ h; simp [objGet] at h
  | cons e s2 ih =>
    intro t k v hs h
    have hs2 : NodupKeys s2 := by
      unfold NodupKeys at hs ⊢
      simp only [List.map_cons, List.nodup_cons] at hs
      exact hs.2
    by_cases he : e.1 = k
    · simp only [objGet, he, if_true] at h
      have hnone : objGet s2 k = none := by
        rw [objGet_none_iff]
        unfold NodupKeys at hs
        simp only [List.map_cons, List.nodup_cons] at hs
        rw [← he]
        exact hs.1
      rw [objAssign_cons, objAssign_get_of_none s2 _ k hnone, he, objGet_objSet_self]
      rw [h]
    · simp only [objGet, he, if_false] at h
      rw [objAssign_cons]
      exact ih _ k v hs2 h

theorem objAssign_get_isSome (s : Obj) :
    ∀ (t : Obj) (k : String), (objGet s k).isSome → (objGet (objAssign t s) k).isSome := by
  induction s with
  | nil => intro t k h; simp [objGet] at h
  | cons e s2 ih =>
    intro t k h
    by_cases he : e.1 = k
    · cases hs2 : objGet s2 k with
      | some w =>
        rw [objAssign_cons]
        exact ih _ k (by simp [hs2])
      | none =>
        rw [objAssign_cons, objAssign_get_of_none s2 _ k hs2, he, objGet_objSet_self]
        simp
    · simp only [objGet, he, if_false] at h
      rw [objAssign_cons]
      exact ih _ k h

theorem objAssign_isSome_left (t s : Obj) (k : String) (h : (objGet t k).isSome) :
    (objGet (objAssign t s) k).isSome := by
  cases hs : objGet s k with
  | some w => exact objAssign_get_isSome s t k (by simp [hs])
  | none => rw [objAssign_get_of_none s t k hs]; exact h

theorem objAssign_disjoint (s : Obj) :
    ∀ t : Obj, NodupKeys s → (∀ a ∈ s.map Prod.fst, a ∉ t.map Prod.fst) →
      objAssign t s = t ++ s := by
  induction s with
  | nil => intro t _ _; simp [objAssign_nil_src]
  | cons e s2 ih =>
    intro t hs hd
    have hk : e.1 ∉ t.map Prod.fst := hd e.1 (by simp)
    have hs2 : NodupKeys s2 := by
      unfold NodupKeys at hs ⊢
      simp only [List.map_cons, List.nodup_cons] at hs
      exact hs.2
    have hknot : e.1 ∉ s2.map Prod.fst := by
      unfold NodupKeys at hs
      simp only [List.map_cons, List.nodup_cons] at hs
      exact hs.1
    rw [objAssign_cons, objSet_fresh t e.1 e.2 hk, ih _ hs2]
    · rw [List.append_assoc, List.singleton_append, Prod.mk.eta]
    · intro a ha
      simp only [List.map_append, List.map_cons, List.map_nil, List.mem_append,
        List.mem_singleton, List.not_mem_nil]
      push_neg
      exact ⟨hd a (by simp [ha]), fun hae => hknot (hae ▸ ha)⟩

theorem objAssign_nil (s : Obj) (h : NodupKeys s) : objAssign [] s = s := by
  rw [objAssign_disjoint s [] h (by simp)]
  exact List.nil_append s

/- ------------------------------------------------------------------ -/
/- Helper lemmas: the insertion-ordered map                            -/
/- ------------------------------------------------------------------ -/

theorem mapGet_none_iff (m : List (JVal × Obj)) (k : JVal) :
    mapGet m k = none ↔ k ∉ m.map Prod.fst := by
  induction m with
  | nil => simp [mapGet]
  | cons e rest ih =>
    by_cases h : e.1 = k
    · simp [mapGet, h]
    · simp [mapGet, h, ih, Ne.symm h]

theorem mapGet_mem (m : List (JVal × Obj)) (k : JVal) (v : Obj) (h : mapGet m k = some v) :
    (k, v) ∈ m := by
  induction m with
  | nil => simp [mapGet] at h
  | cons e rest ih =>
    by_cases he : e.1 = k
    · simp only [mapGet, he, if_true, Option.some.injEq] at h
      subst h
      rw [← he]
      simp
    · simp only [mapGet, he, if_false] at h
      exact List.mem_cons_of_mem e (ih h)

theorem mapSet_fresh (m : List (JVal × Obj)) (k : JVal) (v : Obj) (h : k ∉ m.map Prod.fst) :
    mapSet m k v = m ++ [(k, v)] := by
  induction m with
  | nil => simp [mapSet]
  | cons e rest ih =>
    simp only [List.map_cons, List.mem_cons] at h
    push_neg at h
    simp [mapSet, Ne.symm h.1, ih h.2]

theorem mapSet_keys_of_mem (m : List (JVal × Obj)) (k : JVal) (v : Obj)
    (h : k ∈ m.map Prod.fst) :
    (mapSet m k v).map Prod.fst = m.map Prod.fst := by
  induction m with
  | nil => simp at h
  | cons e rest ih =>
    by_cases he : e.1 = k
    · simp [mapSet, he]
    · simp only [List.map_cons, List.mem_cons] at h
      rcases h with h | h
      · exact absurd h.symm he
      · simp [mapSet, he, ih h]

theorem mem_mapSet (m : List (JVal × Obj)) (k : JVal) (v : Obj) (e : JVal × Obj)
    (hm : (m.map Prod.fst).Nodup) (h : e ∈ mapSet m k v) :
    e = (k, v) ∨ (e ∈ m ∧ e.1 ≠ k) := by
  induction m with
  | nil =>
    simp [mapSet] at h
    exact Or.inl h
  | cons f rest ih =>
    simp only [List.map_cons, List.nodup_cons] at hm
    by_cases hf : f.1 = k
    · simp only [mapSet, hf, if_true] at h
      rcases List.mem_cons.mp h with h | h
      · exact Or.inl h
      · refine Or.inr ⟨List.mem_cons_of_mem f h, ?_⟩
        intro hek
        have : e.1 ∈ rest.map Prod.fst := List.mem_map_of_mem Prod.fst h
        rw [hek, ← hf] at this
        exact hm.1 this
    · simp only [mapSet, hf, if_false] at h
      rcases List.mem_cons.mp h with h | h
      · subst h
        exact Or.inr ⟨List.mem_cons_self _ _, hf⟩
      · rcases ih hm.2 h with h2 | h2
        · exact Or.inl h2
        · exact Or.inr ⟨List.mem_cons_of_mem f h2.1, h2.2⟩

theorem filter_snd_mapSet (m : List (JVal × Obj)) (k : JVal) (v old : Obj)
    (p : Obj → Bool) (hget : mapGet m k = some old)
    (hold : p old = false) (hnew : p v = false) :
    ((mapSet m k v).map Prod.snd).filter p = (m.map Prod.snd).filter p := by
  induction m with
  | nil => simp [mapGet] at hget
  | cons e rest ih =>
    by_cases he : e.1 = k
    · simp only [mapGet, he, if_true, Option.some.injEq] at hget
      simp only [mapSet, he, if_true, List.map_cons, List.filter_cons]
      rw [← hget] at hold
      simp [hold, hnew]
    · simp only [mapGet, he, if_false] at hget
      simp only [mapSet, he, if_false, List.map_cons, List.filter_cons]
      rw [ih hget]

/- ------------------------------------------------------------------ -/
/- Helper lemmas: decimal rendering                                    -/
/- ------------------------------------------------------------------ -/

theorem natToDecList_lt {n : Nat} (h : n < 10) : natToDecList n = [decDigit n] := by
  rw [natToDecList]
  simp [h]

theorem natToDecList_ge {n : Nat} (h : ¬ n < 10) :
    natToDecList n = natToDecList (n / 10) ++ [decDigit (n % 10)] := by
  conv_lhs => rw [natToDecList]
  simp [h]

theorem natToDecCore_eq : ∀ (fuel n : Nat) (acc : List Char), n < fuel →
    natToDecCore fuel n acc = natToDecList n ++ acc := by
  intro fuel
  induction fuel with
  | zero => intro n acc h; omega
  | succ f ih =>
    intro n acc h
    by_cases h10 : n < 10
    · simp [natToDecCore, h10, natToDecList_lt h10]
    · have hdiv : n / 10 < n := Nat.div_lt_self (by omega) (by omega)
      simp only [natToDecCore, h10, if_false]
      rw [ih (n / 10) _ (by omega), natToDecList_ge h10, List.append_assoc]
      rfl

theorem natToDec_eq (n : Nat) : natToDec n = ⟨natToDecList n⟩ := by
  unfold natToDec
  rw [natToDecCore_eq (n + 1) n [] (by omega)]
  simp

theorem decDigit_toNat {n : Nat} (h : n < 10) : (decDigit n).toNat = 48 + n := by
  interval_cases n <;> rfl

theorem decReadAux_concat (a : Nat) (xs : List Char) (c : Char) :
    decReadAux a (xs ++ [c]) = (decReadAux a xs) * 10 + digitVal c := by
  simp [decReadAux, List.foldl_append]

theorem decRead_natToDecList (n : Nat) : decReadAux 0 (natToDecList n) = n := by
  induction n using Nat.strong_induction_on with
  | _ n ih =>
    by_cases h : n < 10
    · rw [natToDecList_lt h]
      simp [decReadAux, digitVal, decDigit_toNat h]
    · rw [natToDecList_ge h, decReadAux_concat,
        ih (n / 10) (Nat.div_lt_self (by omega) (by omega))]
      have h2 : n % 10 < 10 := Nat.mod_lt _ (by omega)
      simp only [digitVal, decDigit_toNat h2]
      omega

theorem natToDec_inj {m n : Nat} (h : natToDec m = natToDec n) : m = n := by
  rw [natToDec_eq, natToDec_eq] at h
  have hdata : natToDecList m = natToDecList n := congrArg String.data h
  calc m = decReadAux 0 (natToDecList m) := (decRead_natToDecList m).symm
    _ = decReadAux 0 (natToDecList n) := by rw [hdata]
    _ = n := decRead_natToDecList n

theorem tmpName_inj {i j : Nat} (h : tmpName i = tmpName j) : i = j := by
  unfold tmpName at h
  have hdata := congrArg String.data h
  rw [String.data_append, String.data_append] at hdata
  have := List.append_cancel_left hdata
  exact natToDec_inj (String.ext this)

/- ------------------------------------------------------------------ -/
/- Helper lemmas: pagination token search                              -/
/- ------------------------------------------------------------------ -/

theorem findTokenStr_trim (l : List (Option JVal)) (s : String)
    (h : findTokenStr l = some s) : jsTrim s ≠ "" := by
  induction l with
  | nil => simp [findTokenStr] at h
  | cons x rest ih =>
    cases x with
    | none => exact ih h
    | some v =>
      cases v with
      | null => exact ih h
      | bool b => exact ih h
      | num n => exact ih h
      | arr xs => exact ih h
      | obj fs => exact ih h
      | str s1 =>
        by_cases he : jsTrim s1 = ""
        · simp only [findTokenStr, he, if_true] at h
          exact ih h
        · simp only [findTokenStr, he, if_false, Option.some.injEq] at h
          subst h
          exact he

theorem findTokenStr_ne_empty (l : List (Option JVal)) (s : String)
    (h : findTokenStr l = some s) : s ≠ "" := by
  intro he
  subst he
  exact findTokenStr_trim l "" h rfl

/- ------------------------------------------------------------------ -/
/- Claim C1                                                            -/
/- ------------------------------------------------------------------ -/

/-- C1: on the Example 1 payload, normalizeKarakeepPayload folds the
identifier-less fragment into the preceding identifier-bearing record,
keeps first-occurrence order, unifies next_page_token into nextCursor and
infers hasMore true. -/
theorem c1_example_normalization :
    normalizeKarakeepPayload c1raw =
      { items :=
          [[("Bookmark_ID", JVal.str "1"), ("Title", JVal.str "A"),
            ("description", JVal.str "d")],
           [("Bookmark_ID", JVal.str "2"), ("Title", JVal.str "B")]]
        nextCursor := some "5"
        hasMore := true } := by
  rfl

/- ------------------------------------------------------------------ -/
/- Claim C2                                                            -/
/- ------------------------------------------------------------------ -/

/-- C2: for every input, normalizeKarakeepPayload yields the canonical
shape with nextCursor either none or a non-empty string, hasMore equal to
the explicit boolean override when one is present (hasMore before
has_more) and otherwise true exactly when a cursor was found, and the
full default result on non-object input. -/
theorem c2_pageresult_invariants (raw : JVal) :
    ((normalizeKarakeepPayload raw).nextCursor = none ∨
      ∃ s, (normalizeKarakeepPayload raw).nextCursor = some s ∧ s ≠ "") ∧
    ((normalizeKarakeepPayload raw).hasMore =
      match explicitHasMoreFlag raw with
      | some b => b
      | none => (normalizeKarakeepPayload raw).nextCursor.isSome) ∧
    (isObjectLike raw = false →
      normalizeKarakeepPayload raw = { items := [], nextCursor := none, hasMore := false }) := by
  cases raw with
  | null => exact ⟨Or.inl rfl, rfl, fun _ => rfl⟩
  | bool b => exact ⟨Or.inl rfl, rfl, fun _ => rfl⟩
  | num n => exact ⟨Or.inl rfl, rfl, fun _ => rfl⟩
  | str s => exact ⟨Or.inl rfl, rfl, fun _ => rfl⟩
  | arr xs => exact ⟨Or.inl rfl, rfl, fun _ => rfl⟩
  | obj fs =>
    refine ⟨?_, ?_, fun h => by simp [isObjectLike] at h⟩
    · cases hf : findTokenStr (tokenCandidates (JVal.obj fs)) with
      | none => exact Or.inl hf
      | some s => exact Or.inr ⟨s, hf, findTokenStr_ne_empty _ s hf⟩
    · have hdef : (normalizeKarakeepPayload (JVal.obj fs)).hasMore =
          (match explicitHasMoreFlag (JVal.obj fs) with
           | some b => b
           | none =>
             match findTokenStr (tokenCandidates (JVal.obj fs)) with
             | some s => jsTrim s != ""
             | none => false) := rfl
      have hdef2 : (normalizeKarakeepPayload (JVal.obj fs)).nextCursor =
          findTokenStr (tokenCandidates (JVal.obj fs)) := rfl
      rw [hdef, hdef2]
      cases he : explicitHasMoreFlag (JVal.obj fs) with
      | some b => rfl
      | none =>
        cases hf : findTokenStr (tokenCandidates (JVal.obj fs)) with
        | none => rfl
        | some s =>
          simp only [Option.isSome_some]
          simp only [bne_iff_ne, ne_eq]
          exact findTokenStr_trim _ s hf

/-- Closed instance discharging the hypotheses of the C2 theorem at a
concrete malformed input. -/
theorem c2_witness :
    normalizeKarakeepPayload (JVal.num 0) =
      { items := [], nextCursor := none, hasMore := false } :=
  (c2_pageresult_invariants (JVal.num 0)).2.2 rfl

/- ------------------------------------------------------------------ -/
/- Claim C3                                                            -/
/- ------------------------------------------------------------------ -/

/-- C3 counterexample: a structured (non-string) body that is a mapping is
not returned by parseToolResponse; with no result field and no sources,
the extractor stringifies the object, finds no JSON container in the
object tag, and yields none, refuting the claim that a structured body
never yields none. -/
theorem c3_counterexample :
    parseToolResponse (JVal.obj [("a", JVal.num 1)]) = none := rfl

/-- C3 amended: parseToolResponse never raises (it is a total function
here), and a structured body is not returned unchanged; what holds is
that an envelope whose result field is a container with non-blank string
form is answered with exactly that result field. -/
theorem c3_structured_result_extraction (fs : Obj) (r : JVal)
    (h1 : objGet fs "result" = some r) (h2 : isContainer r = true)
    (h3 : jsTrim (jsToString r) ≠ "") :
    parseToolResponse (JVal.obj fs) = some r := by
  cases r with
  | null => simp [isContainer] at h2
  | bool b => simp [isContainer] at h2
  | num n => simp [isContainer] at h2
  | str s => simp [isContainer] at h2
  | arr xs =>
    simp only [parseToolResponse, getField]
    rw [h1]
    simp [h3]
  | obj gs =>
    simp only [parseToolResponse, getField]
    rw [h1]
    simp [h3]

/-- Closed instance discharging the hypotheses of the amended C3 theorem. -/
theorem c3_witness :
    parseToolResponse (JVal.obj [("result", JVal.obj [("a", JVal.num 1)])]) =
      some (JVal.obj [("a", JVal.num 1)]) :=
  c3_structured_result_extraction _ _ rfl rfl (by decide)

/- ------------------------------------------------------------------ -/
/- Claim C4                                                            -/
/- ------------------------------------------------------------------ -/

theorem unwrap_chain_parsed (C : JVal) (hC : isContainer C = true) :
    ∀ (n : Nat) (t : String) (fuel : Nat), 1 ≤ n → n ≤ fuel → encodesVal C n t →
      (unwrapLoop fuel t).parsed = some C := by
  intro n
  induction n using Nat.strong_induction_on with
  | _ n ih =>
    intro t fuel h1 hf he
    rcases n with _ | n1
    · omega
    rcases n1 with _ | m
    · have hp : tryParseJSON t = some C := he
      obtain ⟨f, rfl⟩ : ∃ f, fuel = f + 1 := ⟨fuel - 1, by omega⟩
      cases C with
      | arr xs => simp [unwrapLoop, hp]
      | obj gs => simp [unwrapLoop, hp]
      | null => simp [isContainer] at hC
      | bool b => simp [isContainer] at hC
      | num k => simp [isContainer] at hC
      | str s => simp [isContainer] at hC
    · obtain ⟨u, hp, he2⟩ := he
      obtain ⟨f, rfl⟩ : ∃ f, fuel = f + 1 := ⟨fuel - 1, by omega⟩
      rw [show unwrapLoop (f + 1) t = unwrapLoop f u by simp [unwrapLoop, hp]]
      exact ih (m + 1) (by omega) u f (by omega) (by omega) he2

theorem unwrap_chain_text (C : JVal) :
    ∀ (k n : Nat) (t : String), k < n → encodesVal C n t →
      ∃ u, unwrapLoop k t = { parsed := none, text := u } ∧ encodesVal C (n - k) u := by
  intro k
  induction k with
  | zero => intro n t _ he; exact ⟨t, rfl, he⟩
  | succ k2 ih =>
    intro n t hk he
    rcases n with _ | n1
    · omega
    rcases n1 with _ | m
    · omega
    obtain ⟨u, hp, he2⟩ := he
    obtain ⟨w, hw, hew⟩ := ih (m + 1) u (by omega) he2
    refine ⟨w, ?_, ?_⟩
    · rw [show unwrapLoop (k2 + 1) t = unwrapLoop k2 u by simp [unwrapLoop, hp]]
      exact hw
    · have harith : m + 2 - (k2 + 1) = m + 1 - k2 := by omega
      rw [harith]
      exact hew

/-- C4: for a container C and a text that JSON-string-encodes C to depth n,
the unwrap procedure recovers C whenever 1 ≤ n ≤ 5; for n ≥ 6 it stops at
the iteration bound with no parsed container, its text being the layer
still encoding C at the remaining depth (for n = 6 the last
successfully-unwrapped layer, which parses directly to C). -/
theorem c4_bounded_unwrap (C : JVal) (n : Nat) (t : String)
    (hC : isContainer C = true) (h : encodesVal C n t) :
    (1 ≤ n → n ≤ 5 → (unwrapDeepJSONString t).parsed = some C) ∧
    (6 ≤ n → (unwrapDeepJSONString t).parsed = none ∧
      encodesVal C (n - 5) (unwrapDeepJSONString t).text) := by
  constructor
  · intro h1 h5
    exact unwrap_chain_parsed C hC n t 5 h1 h5 h
  · intro h6
    obtain ⟨u, hu, heu⟩ := unwrap_chain_text C 5 n t (by omega) h
    unfold unwrapDeepJSONString
    rw [hu]
    exact ⟨rfl, heu⟩

/-- Closed instance discharging the hypotheses of the C4 theorem at a
depth-two encoding of a concrete array. -/
theorem c4_witness :
    encodesVal (JVal.arr [JVal.num 1]) 2 "\"[1]\"" ∧
    (unwrapDeepJSONString "\"[1]\"").parsed = some (JVal.arr [JVal.num 1]) := by
  have he : encodesVal (JVal.arr [JVal.num 1]) 2 "\"[1]\"" := ⟨"[1]", rfl, rfl⟩
  exact ⟨he, (c4_bounded_unwrap (JVal.arr [JVal.num 1]) 2 "\"[1]\"" rfl he).1
    (by omega) (by omega)⟩

/- ------------------------------------------------------------------ -/
/- Claim C5                                                            -/
/- ------------------------------------------------------------------ -/

/-- C5: a dispatched call whose outbound request aborts (the AbortError
raised on timeout) is answered with the gateway-timeout status 504 and a
message containing the elapsed duration; every other failure is answered
with the distinct generic upstream-failure status 502; totality of
respondToOutcome is the no-crash guarantee of the handler. -/
theorem c5_failure_translation (path : String) (duration : Nat) (n msg : String) :
    (n = "AbortError" →
      respondToOutcome path duration (CallOutcome.failed n msg) =
        { status := 504,
          body := JVal.obj [("detail", JVal.str (timeoutDetail path duration))] } ∧
      ∃ pre post, timeoutDetail path duration = pre ++ natToDec duration ++ post) ∧
    (n ≠ "AbortError" →
      (respondToOutcome path duration (CallOutcome.failed n msg)).status = 502 ∧
      (respondToOutcome path duration (CallOutcome.failed n msg)).status ≠ 504) := by
  constructor
  · intro h
    subst h
    refine ⟨by simp [respondToOutcome],
      ⟨"Upstream timeout on " ++ path ++ " after ", "ms", ?_⟩⟩
    unfold timeoutDetail
    simp [String.append_assoc]
  · intro h
    exact ⟨by simp [respondToOutcome, h], by simp [respondToOutcome, h]⟩

/-- Closed instance discharging the hypotheses of the C5 theorem. -/
theorem c5_witness :
    respondToOutcome "/t" 7 (CallOutcome.failed "AbortError" "m") =
      { status := 504, body := JVal.obj [("detail", JVal.str (timeoutDetail "/t" 7))] } ∧
    ∃ pre post, timeoutDetail "/t" 7 = pre ++ natToDec 7 ++ post :=
  (c5_failure_translation "/t" 7 "AbortError" "m").1 rfl

/- ------------------------------------------------------------------ -/
/- Claim C8                                                            -/
/- ------------------------------------------------------------------ -/

/-- C8 counterexample: on the Example 4 free text the fallback does not
return one record with lowercase keys; the claimed output differs from
what parseKVBlocks produces. -/
theorem c8_counterexample :
    parseKVBlocks c8text ≠
      some { items := [[("title", JVal.str "Hello"),
                        ("tags", JVal.arr [JVal.str "a", JVal.str "b", JVal.str "c"])]],
             cursor := some "7", hasMore := true } := by
  decide

/-- C8 amended: on the Example 4 free text the fallback keeps the original
key capitalization and, because every line is a zero-indent key/value
line, each line after the first starts a new record; the tags value is
split on commas into trimmed strings and the quoted cursor 7 sets hasMore
true. -/
theorem c8_freetext_example :
    parseKVBlocks c8text =
      some { items := [[("Title", JVal.str "Hello")],
                       [("Tags", JVal.arr [JVal.str "a", JVal.str "b", JVal.str "c"])]],
             cursor := some "7", hasMore := true } := rfl

/- ------------------------------------------------------------------ -/
/- Claim C10                                                           -/
/- ------------------------------------------------------------------ -/

/-- C10: a string body whose direct JSON parse yields a container is
returned by parseToolResponse as that parsed value, bypassing the
envelope logic; in particular the JSON text of an envelope with result
and sources fields is returned as the whole envelope object. -/
theorem c10_string_direct_parse :
    (∀ (s : String) (v : JVal), tryParseJSON s = some v → isContainer v = true →
      parseToolResponse (JVal.str s) = some v) ∧
    parseToolResponse (JVal.str envText) =
      some (JVal.obj [("result", JVal.str "x"), ("sources", JVal.arr [])]) := by
  constructor
  · intro s v hp hc
    show extractFirstJSONObjectFromText s = some v
    unfold extractFirstJSONObjectFromText
    simp [hp, hc]
  · rfl

/-- Closed instance discharging the hypotheses of the C10 theorem. -/
theorem c10_witness :
    parseToolResponse (JVal.str "[1]") = some (JVal.arr [JVal.num 1]) :=
  c10_string_direct_parse.1 "[1]" (JVal.arr [JVal.num 1]) rfl rfl

/- ------------------------------------------------------------------ -/
/- Claim C6                                                            -/
/- ------------------------------------------------------------------ -/

/-- C6: two fragments carrying the same truthy record identifier, fed in
order A then B, are merged by the coalescer/deduplicator into one record
in which every field of B wins and every field only in A survives. The
primitivity hypothesis records that for such identifiers the structural
Map-key equality of the model coincides with JavaScript SameValueZero. -/
theorem c6_last_write_wins (A B : Obj) (i : JVal)
    (hA : NodupKeys A) (hB : NodupKeys B)
    (hiA : objGet A "Bookmark_ID" = some i) (hiB : objGet B "Bookmark_ID" = some i)
    (ht : truthy i = true) (_ : isPrimitive i = true) :
    ∃ m,
      (normalizeKarakeepPayload
          (JVal.obj [("items", JVal.arr [JVal.obj A, JVal.obj B])])).items = [m] ∧
      (∀ k v, objGet B k = some v → objGet m k = some v) ∧
      (∀ k v, objGet A k = some v → objGet B k = none → objGet m k = some v) := by
  refine ⟨objAssign A B, ?_, ?_, ?_⟩
  · have hco : coalesceRows [JVal.obj A, JVal.obj B] = [A, B] := by
      unfold coalesceRows
      simp only [List.foldl_cons, List.foldl_nil, coalesceStep, rowFields, hiA, hiB,
        Option.isSome_some, if_true]
      simp [coalesceFlush, objAssign_nil A hA, objAssign_nil B hB]
    have hdd : dedupeById [A, B] = [(i, objAssign A B)] := by
      unfold dedupeById
      simp only [List.foldl_cons, List.foldl_nil, dedupeStep, bidOf, hiA, hiB, ht, if_true]
      simp [mapGet, mapSet, objAssign_nil A hA]
    show ((dedupeById (coalesceRows (rawRows
        (JVal.obj [("items", JVal.arr [JVal.obj A, JVal.obj B])])))).map Prod.snd) = _
    rw [show rawRows (JVal.obj [("items", JVal.arr [JVal.obj A, JVal.obj B])]) =
        [JVal.obj A, JVal.obj B] from rfl, hco, hdd]
    rfl
  · intro k v h
    exact objAssign_get_of_mem B A k v hB h
  · intro k v hAk hBk
    rw [objAssign_get_of_none B A k hBk]
    exact hAk

/-- Closed instance discharging the hypotheses of the C6 theorem. -/
theorem c6_witness :
    ∃ m,
      (normalizeKarakeepPayload
          (JVal.obj [("items", JVal.arr
            [JVal.obj [("Bookmark_ID", JVal.str "9"), ("x", JVal.num 1), ("y", JVal.num 0)],
             JVal.obj [("Bookmark_ID", JVal.str "9"), ("y", JVal.num 2), ("z", JVal.num 3)]])])).items
        = [m] ∧
      (∀ k v, objGet [("Bookmark_ID", JVal.str "9"), ("y", JVal.num 2), ("z", JVal.num 3)] k = some v →
        objGet m k = some v) ∧
      (∀ k v, objGet [("Bookmark_ID", JVal.str "9"), ("x", JVal.num 1), ("y", JVal.num 0)] k = some v →
        objGet [("Bookmark_ID", JVal.str "9"), ("y", JVal.num 2), ("z", JVal.num 3)] k = none →
        objGet m k = some v) :=
  c6_last_write_wins
    [("Bookmark_ID", JVal.str "9"), ("x", JVal.num 1), ("y", JVal.num 0)]
    [("Bookmark_ID", JVal.str "9"), ("y", JVal.num 2), ("z", JVal.num 3)]
    (JVal.str "9") (by decide) (by decide) rfl rfl rfl rfl

/- ------------------------------------------------------------------ -/
/- Coalesced records are well-formed and carry the identifier key       -/
/- ------------------------------------------------------------------ -/

theorem coalesceStep_inv (st : List Obj × Option Obj) (row : JVal)
    (h1 : ∀ it ∈ st.1, (bidOf it).isSome = true ∧ NodupKeys it)
    (h2 : ∀ c, st.2 = some c → (bidOf c).isSome = true ∧ NodupKeys c) :
    (∀ it ∈ (coalesceStep st row).1, (bidOf it).isSome = true ∧ NodupKeys it) ∧
    (∀ c, (coalesceStep st row).2 = some c → (bidOf c).isSome = true ∧ NodupKeys c) := by
  obtain ⟨acc, cur⟩ := st
  cases hrf : rowFields row with
  | none =>
    simp only [coalesceStep, hrf]
    exact ⟨h1, h2⟩
  | some fs =>
    by_cases hb : (objGet fs "Bookmark_ID").isSome = true
    · simp only [coalesceStep, hrf, hb, if_true]
      constructor
      · intro it hit
        cases cur with
        | none => exact h1 it hit
        | some c =>
          rcases List.mem_append.mp hit with h | h
          · exact h1 it h
          · simp only [List.mem_singleton] at h
            subst h
            exact h2 it rfl
      · intro c hc
        simp only [Option.some.injEq] at hc
        subst hc
        refine ⟨objAssign_get_isSome fs [] "Bookmark_ID" hb, ?_⟩
        exact objAssign_nodup fs [] (by simp [NodupKeys])
    · simp only [coalesceStep, hrf, hb, Bool.false_eq_true, if_false]
      cases cur with
      | none => exact ⟨h1, h2⟩
      | some c0 =>
        refine ⟨h1, ?_⟩
        intro c hc
        simp only [Option.some.injEq] at hc
        subst hc
        refine ⟨objAssign_isSome_left c0 fs "Bookmark_ID" (h2 c0 rfl).1, ?_⟩
        exact objAssign_nodup fs c0 (h2 c0 rfl).2

theorem coalesce_fold_inv (rows : List JVal) :
    ∀ st, (∀ it ∈ st.1, (bidOf it).isSome = true ∧ NodupKeys it) →
      (∀ c, st.2 = some c → (bidOf c).isSome = true ∧ NodupKeys c) →
      ∀ it ∈ coalesceFlush (rows.foldl coalesceStep st),
        (bidOf it).isSome = true ∧ NodupKeys it := by
  induction rows with
  | nil =>
    intro st h1 h2 it hit
    obtain ⟨acc, cur⟩ := st
    cases cur with
    | none => exact h1 it hit
    | some c =>
      rcases List.mem_append.mp hit with h | h
      · exact h1 it h
      · simp only [List.mem_singleton] at h
        subst h
        exact h2 it rfl
  | cons row rest ih =>
    intro st h1 h2 it hit
    rw [List.foldl_cons] at hit
    obtain ⟨g1, g2⟩ := coalesceStep_inv st row h1 h2
    exact ih (coalesceStep st row) g1 g2 it hit

theorem coalesce_records (rows : List JVal) :
    ∀ it ∈ coalesceRows rows, (bidOf it).isSome = true ∧ NodupKeys it := by
  intro it hit
  exact coalesce_fold_inv rows ([], none) (by simp) (by simp) it hit

/- ------------------------------------------------------------------ -/
/- De-duplication preserves the map invariant                           -/
/- ------------------------------------------------------------------ -/

theorem dedupeStep_inv (m : List (JVal × Obj)) (c : Obj)
    (hm : DedupInv m) (hcN : NodupKeys c) (hcS : (bidOf c).isSome = true) :
    DedupInv (dedupeStep m c) := by
  obtain ⟨hK1, hVals, hD⟩ := hm
  obtain ⟨b, hb⟩ := Option.isSome_iff_exists.mp hcS
  have hstep : dedupeStep m c =
      mapSet m (if truthy b then b else JVal.str (tmpName m.length))
        (objAssign ((mapGet m (if truthy b then b else JVal.str (tmpName m.length))).getD []) c) := by
    unfold dedupeStep
    rw [hb]
  set key := (if truthy b then b else JVal.str (tmpName m.length)) with hkeydef
  set nv := objAssign ((mapGet m key).getD []) c with hnv
  have hbidnv : bidOf nv = some b := by
    rw [hnv]
    exact objAssign_get_of_mem c _ "Bookmark_ID" b hcN hb
  have hnodupnv : NodupKeys nv := by
    rw [hnv]
    cases hg : mapGet m key with
    | none => simpa [hg] using objAssign_nodup c [] (by simp [NodupKeys])
    | some old =>
      have := (hVals (key, old) (mapGet_mem m key old hg)).1
      simpa [hg] using objAssign_nodup c old this
  rw [hstep]
  refine ⟨?_, ?_, ?_⟩
  · by_cases hmem : key ∈ m.map Prod.fst
    · rw [show (mapSet m key nv).map Prod.fst = m.map Prod.fst from
        mapSet_keys_of_mem m key nv hmem]
      exact hK1
    · rw [mapSet_fresh m key nv hmem]
      simp only [List.map_append, List.map_cons, List.map_nil]
      rw [List.nodup_append]
      exact ⟨hK1, by simp, by intro a ha hb2; simp at hb2; subst hb2; exact hmem ha⟩
  · intro e he
    rcases mem_mapSet m key nv e hK1 he with h | h
    · subst h
      exact ⟨hnodupnv, by rw [hbidnv]; rfl⟩
    · exact hVals e h.1
  · intro e he b2 hb2 htb2
    rcases mem_mapSet m key nv e hK1 he with h | h
    · subst h
      simp only at hb2
      rw [hbidnv] at hb2
      injection hb2 with hb2
      subst hb2
      rw [hkeydef]
      simp [htb2]
    · exact hD e h.1 b2 hb2 htb2

theorem dedupe_fold_inv (cs : List Obj) :
    ∀ m, DedupInv m → (∀ c ∈ cs, NodupKeys c ∧ (bidOf c).isSome = true) →
      DedupInv (cs.foldl dedupeStep m) := by
  induction cs with
  | nil => intro m hm _; exact hm
  | cons c cs2 ih =>
    intro m hm hcs
    rw [List.foldl_cons]
    exact ih (dedupeStep m c)
      (dedupeStep_inv m c hm (hcs c (by simp)).1 (hcs c (by simp)).2)
      (fun x hx => hcs x (List.mem_cons_of_mem c hx))

theorem dedupe_inv_final (cs : List Obj)
    (h : ∀ c ∈ cs, NodupKeys c ∧ (bidOf c).isSome = true) :
    DedupInv (dedupeById cs) :=
  dedupe_fold_inv cs [] ⟨by simp, by simp, by simp⟩ h

/- ------------------------------------------------------------------ -/
/- Re-normalization of an already-normalized items list                -/
/- ------------------------------------------------------------------ -/

theorem bidTruthy_isSome (o : Obj) (h : bidTruthy o = true) : (bidOf o).isSome = true := by
  unfold bidTruthy at h
  cases hb : bidOf o with
  | none => rw [hb] at h; simp at h
  | some v => simp [hb]

theorem bidTruthy_val (o : Obj) (b : JVal) (hb : bidOf o = some b) (h : bidTruthy o = true) :
    truthy b = true := by
  unfold bidTruthy at h
  rw [hb] at h
  exact h

theorem coalesce_fold_allbid (l : List Obj) :
    ∀ (acc : List Obj) (c : Obj),
      (∀ o ∈ l, (bidOf o).isSome = true ∧ NodupKeys o) →
      coalesceFlush ((l.map JVal.obj).foldl coalesceStep (acc, some c)) = acc ++ c :: l := by
  induction l with
  | nil => intro acc c _; rfl
  | cons o l2 ih =>
    intro acc c h
    have ho := h o (by simp)
    rw [List.map_cons, List.foldl_cons]
    have hstep : coalesceStep (acc, some c) (JVal.obj o) = (acc ++ [c], some o) := by
      simp only [coalesceStep, rowFields,
        show (objGet o "Bookmark_ID").isSome = true from ho.1, if_true]
      simp [objAssign_nil o ho.2]
    rw [hstep, ih (acc ++ [c]) o (fun x hx => h x (List.mem_cons_of_mem o hx))]
    simp

theorem coalesce_map_obj (l : List Obj)
    (h : ∀ o ∈ l, (bidOf o).isSome = true ∧ NodupKeys o) :
    coalesceRows (l.map JVal.obj) = l := by
  cases l with
  | nil => rfl
  | cons o l2 =>
    have ho := h o (by simp)
    unfold coalesceRows
    rw [List.map_cons, List.foldl_cons]
    have hstep : coalesceStep ([], none) (JVal.obj o) = ([], some o) := by
      simp only [coalesceStep, rowFields,
        show (objGet o "Bookmark_ID").isSome = true from ho.1, if_true]
      simp [objAssign_nil o ho.2]
    rw [hstep, coalesce_fold_allbid l2 [] o (fun x hx => h x (List.mem_cons_of_mem o hx))]
    simp

theorem dedupe_distinct (l : List Obj) :
    ∀ m : List (JVal × Obj),
      (∀ o ∈ l, NodupKeys o) →
      (∀ o ∈ l, ∃ b, bidOf o = some b ∧ truthy b = true ∧ b ∉ m.map Prod.fst) →
      List.Pairwise (fun o1 o2 => bidOf o1 ≠ bidOf o2) l →
      (l.foldl dedupeStep m).map Prod.snd = m.map Prod.snd ++ l := by
  induction l with
  | nil => intro m _ _ _; simp
  | cons o l2 ih =>
    intro m hN hB hP
    obtain ⟨b, hb, htb, hbm⟩ := hB o (by simp)
    rw [List.foldl_cons]
    have hstep : dedupeStep m o = m ++ [(b, o)] := by
      unfold dedupeStep
      rw [hb]
      simp [htb, (mapGet_none_iff m b).mpr hbm, objAssign_nil o (hN o (by simp)),
        mapSet_fresh m b o hbm]
    have hN2 : ∀ x ∈ l2, NodupKeys x := fun x hx => hN x (List.mem_cons_of_mem o hx)
    have hB2 : ∀ x ∈ l2, ∃ b2, bidOf x = some b2 ∧ truthy b2 = true ∧
        b2 ∉ (m ++ [(b, o)]).map Prod.fst := by
      intro x hx
      obtain ⟨b2, hb2, htb2, hbm2⟩ := hB x (List.mem_cons_of_mem o hx)
      refine ⟨b2, hb2, htb2, ?_⟩
      simp only [List.map_append, List.map_cons, List.map_nil, List.mem_append,
        List.mem_singleton]
      push_neg
      refine ⟨hbm2, ?_⟩
      intro he
      have hneq := (List.pairwise_cons.mp hP).1 x hx
      rw [hb, hb2] at hneq
      exact hneq (by rw [he])
    have hP2 := (List.pairwise_cons.mp hP).2
    rw [hstep, ih (m ++ [(b, o)]) hN2 hB2 hP2]
    simp

/- ------------------------------------------------------------------ -/
/- Claim C9                                                            -/
/- ------------------------------------------------------------------ -/

/-- C9 counterexample: normalizing the already-normalized result of
c9raw changes the items list, because the record with the falsy
identifier computes the synthetic placeholder tmp_0 in the second pass
and the record whose real identifier is the string tmp_0 is then merged
into it. -/
theorem c9_counterexample :
    ¬ ((normalizeKarakeepPayload (pageToJVal (normalizeKarakeepPayload c9raw))).items
        = (normalizeKarakeepPayload c9raw).items) := by
  decide

/-- C9 amended: coalescing is idempotent on every already-normalized
result whose records all carry a truthy identifier: re-normalizing such a
PageResult reproduces its items list byte for byte. (The
counterexample shows the restriction to truthy identifiers is needed:
falsy identifiers are re-keyed by map size, which is not stable.) -/
theorem c9_idempotent_on_truthy (raw : JVal)
    (h : ∀ it ∈ (normalizeKarakeepPayload raw).items, bidTruthy it = true) :
    (normalizeKarakeepPayload (pageToJVal (normalizeKarakeepPayload raw))).items
      = (normalizeKarakeepPayload raw).items := by
  have hmain : ∀ its : List Obj,
      (∀ o ∈ its, NodupKeys o) →
      (∀ o ∈ its, bidTruthy o = true) →
      List.Pairwise (fun o1 o2 => bidOf o1 ≠ bidOf o2) its →
      ∀ P : PageResult, P.items = its →
      (normalizeKarakeepPayload (pageToJVal P)).items = its := by
    intro its hN hT hP P hPits
    have hrows : rawRows (pageToJVal P) = its.map JVal.obj := by
      rw [show rawRows (pageToJVal P) = P.items.map JVal.obj from rfl, hPits]
    have hco : coalesceRows (rawRows (pageToJVal P)) = its := by
      rw [hrows]
      exact coalesce_map_obj its
        (fun o ho => ⟨bidTruthy_isSome o (hT o ho), hN o ho⟩)
    have hitems : (normalizeKarakeepPayload (pageToJVal P)).items
        = (dedupeById (coalesceRows (rawRows (pageToJVal P)))).map Prod.snd := rfl
    rw [hitems, hco]
    unfold dedupeById
    have hB : ∀ o ∈ its, ∃ b, bidOf o = some b ∧ truthy b = true ∧
        b ∉ ([] : List (JVal × Obj)).map Prod.fst := by
      intro o ho
      obtain ⟨b, hb⟩ := Option.isSome_iff_exists.mp (bidTruthy_isSome o (hT o ho))
      exact ⟨b, hb, bidTruthy_val o b hb (hT o ho), by simp⟩
    have := dedupe_distinct its [] hN hB hP
    simpa using this
  by_cases ho : isObjectLike raw = true
  · have hitems1 : (normalizeKarakeepPayload raw).items
        = (dedupeById (coalesceRows (rawRows raw))).map Prod.snd := by
      simp [normalizeKarakeepPayload, ho]
    have hinv := dedupe_inv_final (coalesceRows (rawRows raw))
      (fun c hc => ⟨(coalesce_records _ c hc).2, (coalesce_records _ c hc).1⟩)
    obtain ⟨hK1, hVals, hD⟩ := hinv
    have hN : ∀ o ∈ (normalizeKarakeepPayload raw).items, NodupKeys o := by
      intro o hoi
      rw [hitems1] at hoi
      obtain ⟨e, he, rfl⟩ := List.mem_map.mp hoi
      exact (hVals e he).1
    have hP : List.Pairwise (fun o1 o2 => bidOf o1 ≠ bidOf o2)
        (normalizeKarakeepPayload raw).items := by
      rw [hitems1, List.pairwise_map]
      have hK1p : List.Pairwise (fun e1 e2 : JVal × Obj => e1.1 ≠ e2.1)
          (dedupeById (coalesceRows (rawRows raw))) := List.pairwise_map.mp hK1
      refine hK1p.imp_of_mem ?_
      intro e1 e2 h1 h2 hne
      have hm1 : e1.2 ∈ (normalizeKarakeepPayload raw).items := by
        rw [hitems1]; exact List.mem_map_of_mem Prod.snd h1
      have hm2 : e2.2 ∈ (normalizeKarakeepPayload raw).items := by
        rw [hitems1]; exact List.mem_map_of_mem Prod.snd h2
      obtain ⟨b1, hb1⟩ := Option.isSome_iff_exists.mp (bidTruthy_isSome _ (h e1.2 hm1))
      obtain ⟨b2, hb2⟩ := Option.isSome_iff_exists.mp (bidTruthy_isSome _ (h e2.2 hm2))
      have he1 : b1 = e1.1 := hD e1 h1 b1 hb1 (bidTruthy_val _ b1 hb1 (h e1.2 hm1))
      have he2 : b2 = e2.1 := hD e2 h2 b2 hb2 (bidTruthy_val _ b2 hb2 (h e2.2 hm2))
      rw [hb1, hb2, he1, he2]
      intro hcon
      injection hcon with hcon
      exact hne hcon
    exact hmain _ hN h hP (normalizeKarakeepPayload raw) rfl
  · have hempty : (normalizeKarakeepPayload raw).items = [] := by
      simp [normalizeKarakeepPayload, ho]
    rw [hempty]
    exact hmain [] (by simp) (by simp) (by simp) (normalizeKarakeepPayload raw) hempty

/-- Closed instance discharging the hypotheses of the amended C9 theorem
at the Example 1 payload, whose identifiers are all truthy. -/
theorem c9_witness :
    (normalizeKarakeepPayload (pageToJVal (normalizeKarakeepPayload c1raw))).items
      = (normalizeKarakeepPayload c1raw).items :=
  c9_idempotent_on_truthy c1raw (by decide)

/- ------------------------------------------------------------------ -/
/- Identifier-less records under the no-synthetic-collision hypothesis -/
/- ------------------------------------------------------------------ -/

theorem dedupeStepTmp (m : List (JVal × Obj)) (c : Obj)
    (hm : DedupTmpInv m) (hcN : NodupKeys c)
    (hcT : ∀ s, bidOf c = some (JVal.str s) → ∀ t, s ≠ "tmp_" ++ t) :
    DedupTmpInv (dedupeStep m c) ∧
    ((dedupeStep m c).map Prod.snd).filter (fun it => !(bidTruthy it))
      = ((m.map Prod.snd).filter (fun it => !(bidTruthy it)) ++
          (if bidTruthy c then [] else [c])) := by
  obtain ⟨hK1, hK2, hN2⟩ := hm
  by_cases hq : bidTruthy c = true
  · -- the record carries a truthy identifier
    have hbo : ∃ b, bidOf c = some b ∧ truthy b = true := by
      unfold bidTruthy at hq
      cases hb : bidOf c with
      | none => rw [hb] at hq; simp at hq
      | some b => rw [hb] at hq; exact ⟨b, rfl, hq⟩
    obtain ⟨b, hb, htb⟩ := hbo
    have hstep : dedupeStep m c = mapSet m b (objAssign ((mapGet m b).getD []) c) := by
      simp only [dedupeStep, hb, htb, if_true]
    have hkeyNS : ∀ i : Nat, b ≠ JVal.str (tmpName i) := by
      intro i heq
      cases b with
      | str s =>
        injection heq with h2
        exact hcT s hb (natToDec i) h2
      | null => simp at heq
      | bool x => simp at heq
      | num x => simp at heq
      | arr x => simp at heq
      | obj x => simp at heq
    cases hg : mapGet m b with
    | some old =>
      have hmem : b ∈ m.map Prod.fst := by
        by_contra hc2
        rw [(mapGet_none_iff m b).mpr hc2] at hg
        cases hg
      have holdmem := mapGet_mem m b old hg
      have holdT : bidTruthy old = true := (hN2 (b, old) holdmem).mpr hkeyNS
      have hbnv : bidOf (objAssign old c) = some b :=
        objAssign_get_of_mem c old "Bookmark_ID" b hcN hb
      have hnvT : bidTruthy (objAssign old c) = true := by
        simp only [bidTruthy, hbnv]
        exact htb
      rw [hstep]
      simp only [hg, Option.getD_some]
      have hkeys : (mapSet m b (objAssign old c)).map Prod.fst = m.map Prod.fst :=
        mapSet_keys_of_mem m b _ hmem
      have hlen : (mapSet m b (objAssign old c)).length = m.length := by
        have := congrArg List.length hkeys
        simpa using this
      refine ⟨⟨by rw [hkeys]; exact hK1, ?_, ?_⟩, ?_⟩
      · intro e he i hei
        rcases mem_mapSet m b _ e hK1 he with h | h
        · subst h
          exact absurd hei (hkeyNS i)
        · rw [hlen]
          exact hK2 e h.1 i hei
      · intro e he
        rcases mem_mapSet m b _ e hK1 he with h | h
        · subst h
          simpa [hnvT] using hkeyNS
        · exact hN2 e h.1
      · rw [filter_snd_mapSet m b (objAssign old c) old _ hg (by simp [holdT]) (by simp [hnvT])]
        simp [hq]
    | none =>
      have hmem : b ∉ m.map Prod.fst := (mapGet_none_iff m b).mp hg
      rw [hstep]
      simp only [hg, Option.getD_none]
      rw [objAssign_nil c hcN, mapSet_fresh m b c hmem]
      refine ⟨⟨?_, ?_, ?_⟩, ?_⟩
      · simp only [List.map_append, List.map_cons, List.map_nil]
        rw [List.nodup_append]
        exact ⟨hK1, by simp,
          by intro a ha hb2; simp at hb2; subst hb2; exact hmem ha⟩
      · intro e he i hei
        simp only [List.length_append, List.length_cons, List.length_nil]
        rcases List.mem_append.mp he with h | h
        · have := hK2 e h i hei
          omega
        · simp only [List.mem_singleton] at h
          subst h
          exact absurd hei (hkeyNS i)
      · intro e he
        rcases List.mem_append.mp he with h | h
        · exact hN2 e h
        · simp only [List.mem_singleton] at h
          subst h
          simpa [hq] using hkeyNS
      · simp [hq, List.filter_append]
  · -- the record is identifier-less: falsy or absent Bookmark_ID
    have hqf : bidTruthy c = false := by
      cases hx : bidTruthy c
      · rfl
      · exact absurd hx hq
    have hstep : dedupeStep m c =
        mapSet m (JVal.str (tmpName m.length))
          (objAssign ((mapGet m (JVal.str (tmpName m.length))).getD []) c) := by
      unfold bidTruthy at hqf
      cases hb : bidOf c with
      | none => simp only [dedupeStep, hb]
      | some v =>
        rw [hb] at hqf
        have htv : truthy v = false := hqf
        simp only [dedupeStep, hb, htv, Bool.false_eq_true, if_false]
    have hfresh : mapGet m (JVal.str (tmpName m.length)) = none := by
      cases hg : mapGet m (JVal.str (tmpName m.length)) with
      | none => rfl
      | some old =>
        have := hK2 _ (mapGet_mem m _ old hg) m.length rfl
        omega
    have hmem : JVal.str (tmpName m.length) ∉ m.map Prod.fst :=
      (mapGet_none_iff m _).mp hfresh
    rw [hstep]
    simp only [hfresh, Option.getD_none]
    rw [objAssign_nil c hcN, mapSet_fresh m _ c hmem]
    refine ⟨⟨?_, ?_, ?_⟩, ?_⟩
    · simp only [List.map_append, List.map_cons, List.map_nil]
      rw [List.nodup_append]
      exact ⟨hK1, by simp,
        by intro a ha hb2; simp at hb2; subst hb2; exact hmem ha⟩
    · intro e he i hei
      simp only [List.length_append, List.length_cons, List.length_nil]
      rcases List.mem_append.mp he with h | h
      · have := hK2 e h i hei
        omega
      · simp only [List.mem_singleton] at h
        subst h
        simp only at hei
        injection hei with hei2
        have := tmpName_inj hei2.symm
        omega
    · intro e he
      rcases List.mem_append.mp he with h | h
      · exact hN2 e h
      · simp only [List.mem_singleton] at h
        subst h
        simp only [hqf]
        constructor
        · intro hcon
          cases hcon
        · intro hall
          exact absurd rfl (hall m.length)
    · simp [hqf, List.filter_append]

theorem dedupe_tmp_fold (cs : List Obj) :
    ∀ m, DedupTmpInv m →
      (∀ c ∈ cs, NodupKeys c ∧ (∀ s, bidOf c = some (JVal.str s) → ∀ t, s ≠ "tmp_" ++ t)) →
      ((cs.foldl dedupeStep m).map Prod.snd).filter (fun it => !(bidTruthy it))
        = (m.map Prod.snd).filter (fun it => !(bidTruthy it)) ++
          cs.filter (fun it => !(bidTruthy it)) := by
  induction cs with
  | nil => intro m _ _; simp
  | cons c cs2 ih =>
    intro m hm hcs
    obtain ⟨hinv2, hfil⟩ := dedupeStepTmp m c hm (hcs c (by simp)).1 (hcs c (by simp)).2
    rw [List.foldl_cons,
      ih (dedupeStep m c) hinv2 (fun x hx => hcs x (List.mem_cons_of_mem c hx)), hfil,
      List.filter_cons]
    cases hq : bidTruthy c <;> simp [hq, List.append_assoc]

/- ------------------------------------------------------------------ -/
/- Claim C7                                                            -/
/- ------------------------------------------------------------------ -/

/-- C7 counterexample: on c7raw, the two identifier-less records are
both merged into the map slot tmp_1 already claimed by a record whose
real identifier is the string tmp_1, so they do not each yield their own
entry in the output items. -/
theorem c7_counterexample :
    ¬ (((normalizeKarakeepPayload c7raw).items.filter (fun it => !(bidTruthy it)))
        = ((coalesceRows (rawRows c7raw)).filter (fun it => !(bidTruthy it)))) := by
  decide

theorem short_ne_tmp (s t : String) (h : s.length < 4) : s ≠ "tmp_" ++ t := by
  intro he
  have hlen := congrArg String.length he
  rw [String.length_append, show ("tmp_" : String).length = 4 from rfl] at hlen
  omega

/-- C7 amended: provided no coalesced record carries a string identifier
of the synthetic shape (tmp_ followed by anything), every identifier-less
record is assigned a fresh synthetic placeholder, no two identifier-less
records are merged with one another, and each yields its own entry in the
output items: the identifier-less records of the output are exactly the
identifier-less coalesced records, in order. The counterexample shows
the proviso is needed. -/
theorem c7_placeholders_fresh (raw : JVal)
    (h : ∀ it ∈ coalesceRows (rawRows raw),
      ∀ s, bidOf it = some (JVal.str s) → ∀ t, s ≠ "tmp_" ++ t) :
    ((normalizeKarakeepPayload raw).items.filter (fun it => !(bidTruthy it)))
      = ((coalesceRows (rawRows raw)).filter (fun it => !(bidTruthy it))) := by
  by_cases ho : isObjectLike raw = true
  · have hitems : (normalizeKarakeepPayload raw).items
        = (dedupeById (coalesceRows (rawRows raw))).map Prod.snd := by
      simp [normalizeKarakeepPayload, ho]
    rw [hitems]
    unfold dedupeById
    have := dedupe_tmp_fold (coalesceRows (rawRows raw)) []
      ⟨by simp, by simp, by simp⟩
      (fun c hc => ⟨(coalesce_records _ c hc).2, h c hc⟩)
    simpa using this
  · have hitems : (normalizeKarakeepPayload raw).items = [] := by
      simp [normalizeKarakeepPayload, ho]
    have hrows : rawRows raw = [] := by
      cases raw with
      | null => rfl
      | bool b => rfl
      | num n => rfl
      | str s => rfl
      | arr xs => simp [isObjectLike] at ho
      | obj fs => simp [isObjectLike] at ho
    rw [hitems, hrows]
    rfl

/-- Closed instance discharging the hypotheses of the amended C7 theorem
at the Example 1 payload, whose identifiers are short strings that cannot
have the synthetic shape. -/
theorem c7_witness :
    ((normalizeKarakeepPayload c1raw).items.filter (fun it => !(bidTruthy it)))
      = ((coalesceRows (rawRows c1raw)).filter (fun it => !(bidTruthy it))) :=
  c7_placeholders_fresh c1raw (by
    intro it hit s hs t
    have hco : coalesceRows (rawRows c1raw) =
        [[("Bookmark_ID", JVal.str "1"), ("Title", JVal.str "A"),
          ("description", JVal.str "d")],
         [("Bookmark_ID", JVal.str "2"), ("Title", JVal.str "B")]] := rfl
    rw [hco] at hit
    simp only [List.mem_cons, List.not_mem_nil, or_false] at hit
    rcases hit with h1 | h1 <;> subst h1 <;> simp [bidOf, objGet] at hs <;> subst hs
    · exact short_ne_tmp "1" t (by decide)
    · exact short_ne_tmp "2" t (by decide))
